import Mathlib

/-!
Verification of the cache-component repository: a shallow embedding of the
MemoryStorage backend, the three revisions of the CachePool get-or-compute
logic (the object-envelope revision A, the tuple-envelope revision B, and the
class-based revision C of part_000), the NamespaceCachePool key-prefixing and
clear logic, and the ChainedCachePool namespace routing.

Keys and stored strings are modelled as lists of characters.  JavaScript
numbers that can appear in an expiry field after a JSON round trip are
modelled by the inductive type JNum: a finite integer timestamp, Infinity,
or null (JSON.stringify turns Infinity into null, and isFinite(null) is
true in JavaScript because null coerces to 0).  A string stored in a
revision-B store is modelled by the outcome of JSON.parse on it: not
syntactically valid JSON (JSON.parse throws, modelled with Except), the
JSON literal null, or a non-null JSON value characterized by the only two
properties the get code consults — its index-0 and index-1 properties.
Compute callbacks are instrumented: every get returns the number of times
the callback was invoked, so that hit/miss claims are statable.
-/

namespace CacheModel

/-- Keys and raw strings are lists of characters. -/
abbrev Key := List Char

/-- Converts a Lean string literal to a model key. -/
def toKey (s : String) : Key := s.data

/-- A JavaScript number value as it can appear in an expiry field: a finite
integer timestamp, Infinity, or null (the JSON round-trip image of
Infinity). -/
inductive JNum where
  | num (t : Int)
  | inf
  | null
deriving DecidableEq, Repr

/-- JavaScript isFinite: true on a finite number, false on Infinity, and
true on null, because Number(null) is 0. -/
def JNum.isFiniteJs : JNum → Bool
  | .num _ => true
  | .inf => false
  | .null => true

/-- The JavaScript comparison e < now, where e is an expiry field value:
null coerces to 0. -/
def JNum.ltNow : JNum → Int → Bool
  | .num t, now => t < now
  | .inf, _ => false
  | .null, now => 0 < now

/-- The JavaScript comparison now < e, where e is an expiry field value:
null coerces to 0. -/
def JNum.nowLt (now : Int) : JNum → Bool
  | .num t => now < t
  | .inf => true
  | .null => now < 0

/-- The effect of a JSON round trip on an expiry number:
JSON.stringify(Infinity) is the literal null, finite numbers survive. -/
def serializeNum : JNum → JNum
  | .inf => .null
  | .num t => .num t
  | .null => .null

/-- One entry of the MemoryStorage backing array (part_001): a key and a
stored value. -/
structure StorageEntry (V : Type) where
  key : Key
  value : V
deriving DecidableEq, Repr

/-- The MemoryStorage backing array. -/
abbrev Store (V : Type) := List (StorageEntry V)

/-- MemoryStorage findIndexFor: index of the first entry whose key equals
the argument, none when absent (JavaScript findIndex returning -1). -/
def findIndexFor {V : Type} : Store V → Key → Option Nat
  | [], _ => none
  | e :: es, k => if e.key = k then some 0 else (findIndexFor es k).map (· + 1)

/-- Overwrites the value field of the entry at a given index, keeping its
key (the statement storage[index].value = value). -/
def updateValueAt {V : Type} : Store V → Nat → V → Store V
  | [], _, _ => []
  | e :: es, 0, v => { e with value := v } :: es
  | e :: es, n + 1, v => e :: updateValueAt es n v

/-- MemoryStorage getItem: the value of the entry found by findIndexFor,
null when absent. -/
def getItem {V : Type} (s : Store V) (k : Key) : Option V :=
  match findIndexFor s k with
  | some i => (s.get? i).map (·.value)
  | none => none

/-- MemoryStorage key(index): the key at an enumeration position. -/
def keyAt {V : Type} (s : Store V) (i : Nat) : Option Key :=
  (s.get? i).map (·.key)

/-- MemoryStorage removeItem: splice out the entry found by findIndexFor,
no-op when absent. -/
def removeItem {V : Type} (s : Store V) (k : Key) : Store V :=
  match findIndexFor s k with
  | some i => s.eraseIdx i
  | none => s

/-- MemoryStorage setItem: overwrite the value in place when the key is
present, push a new entry otherwise. -/
def setItem {V : Type} (s : Store V) (k : Key) (v : V) : Store V :=
  match findIndexFor s k with
  | some i => updateValueAt s i v
  | none => s ++ [⟨k, v⟩]

/-- MemoryStorage clear: the backing array is replaced by an empty one. -/
def clearStore {V : Type} (_ : Store V) : Store V := []

/-- The list of keys of a store, in enumeration order. -/
def storeKeys {V : Type} (s : Store V) : List Key := s.map (·.key)

/-- CachePool has: true iff the store holds any entry for the key. -/
def hasStore {V : Type} (s : Store V) (k : Key) : Bool :=
  (getItem s k).isSome

/-- The states of a MemoryStorage reachable from the initial empty array
through its mutating operations. -/
inductive ReachableStore {V : Type} : Store V → Prop
  | empty : ReachableStore []
  | set (s : Store V) (k : Key) (v : V) :
      ReachableStore s → ReachableStore (setItem s k v)
  | remove (s : Store V) (k : Key) :
      ReachableStore s → ReachableStore (removeItem s k)
  | clear (s : Store V) : ReachableStore s → ReachableStore (clearStore s)

/-- Errors a pool operation can raise: a TypeError from dereferencing
undefined, or a SyntaxError from JSON.parse of a string that is not valid
JSON. -/
inductive JsErr where
  | typeError
  | syntaxError
deriving DecidableEq, Repr

/-- A string held in a revision-B store, characterized by the outcome of
JSON.parse on it.  invalid: not syntactically valid JSON, so JSON.parse
throws a SyntaxError.  jnull: the string parses to the JSON literal null.
jval p0 p1: the string parses to a non-null JSON value whose index-0
property is p0 (none when absent or null — for example the number 5 has no
index-0 property) and whose index-1 property is p1 (none when absent; a
parsed index-1 property is null or a finite number, never Infinity, since
JSON cannot encode Infinity).  A valid envelope encoding [v] parses to
jval (some v) none and [v, e] to jval (some v) (some (num e)); strings such
as the five-character word null or the digit 5 are valid JSON but not
envelope encodings. -/
inductive StoredStr (T : Type) where
  | invalid (s : Key)
  | jnull
  | jval (p0 : Option T) (p1 : Option JNum)
deriving DecidableEq, Repr

/-- The tuple envelope of revision B: a value with an optional expiry
timestamp, serialized as the array [value, expiry?]. -/
abbrev EnvB (T : Type) := T × Option Int

/-- A store holding revision-B stored strings. -/
abbrev StoreB (T : Type) := Store (StoredStr T)

/-- The parse characterization of JSON.stringify of an envelope returned by
the compute callback: [v] parses back to a value with index-0 v and no
index-1; [v, e] to index-0 v and index-1 e. -/
def encodeEnvB {T : Type} (e : EnvB T) : StoredStr T :=
  .jval (some e.1) (e.2.map JNum.num)

/-- The nullish coalescing item[1] ?? Infinity: both an absent and a null
index-1 property coalesce to Infinity. -/
def nullishToInf : Option JNum → JNum
  | none => .inf
  | some .null => .inf
  | some j => j

/-- Revision B private getItem: read the raw string, return null when the
store has no entry, JSON.parse it otherwise — which throws on a string
that is not valid JSON, yields null for the stored string null (so the
caller sees the same null as for an absent entry), and yields the parsed
value otherwise. -/
def getItemB {T : Type} (s : StoreB T) (k : Key) :
    Except JsErr (Option (Option T × Option JNum)) :=
  match getItem s k with
  | none => .ok none
  | some (.invalid _) => .error .syntaxError
  | some .jnull => .ok none
  | some (.jval p0 p1) => .ok (some (p0, p1))

/-- Revision B CachePool.get: miss when the parsed item is null (absent
entry or stored null literal) or when (item[1] ?? Infinity) < now, in
which case the callback is invoked, the fresh envelope stored, and its
value returned; otherwise the index-0 property of the parsed item is
returned untouched (undefined — none — when the parsed value is not an
array, as for a stored 5).  The third component counts callback
invocations. -/
def getB {T : Type} (s : StoreB T) (k : Key) (fn : Unit → EnvB T) (now : Int) :
    Except JsErr (Option T) × StoreB T × Nat :=
  match getItemB s k with
  | .error e => (.error e, s, 0)
  | .ok none =>
      let it := fn ()
      (.ok (some it.1), setItem s k (encodeEnvB it), 1)
  | .ok (some it) =>
      if (nullishToInf it.2).ltNow now then
        let nit := fn ()
        (.ok (some nit.1), setItem s k (encodeEnvB nit), 1)
      else
        (.ok it.1, s, 0)

/-- The in-memory cache item of revision A: the object with value,
expiresAt and hit fields handed to the compute callback. -/
structure ItemA (T : Type) where
  value : Option T
  expiresAt : JNum
  hit : Bool
deriving DecidableEq, Repr

/-- The stored (JSON round-tripped) form of a revision A item: the value is
always set by the miss path before stringification, and expiresAt has been
mapped through serializeNum (so Infinity has become null). -/
structure StoredA (T : Type) where
  value : T
  expiresAt : JNum
  hit : Bool
deriving DecidableEq, Repr

/-- A store holding revision-A serialized envelopes (modelled post-parse;
the non-envelope stored strings concern only the revision-B claim). -/
abbrev StoreA (T : Type) := Store (StoredA T)

/-- Revision A private getItem: start from the default item (value unset,
expiresAt Infinity, hit false) and let the JSON.parse reviver copy each of
the stored value, expiresAt and hit fields over it when an entry exists. -/
def getItemA {T : Type} (s : StoreA T) (k : Key) : ItemA T :=
  match getItem s k with
  | none => ⟨none, .inf, false⟩
  | some st => ⟨some st.value, st.expiresAt, st.hit⟩

/-- Revision A CachePool.get: miss when the parsed item has hit false, or
its expiresAt passes isFinite and is below now.  On a miss, hit is set to
true, the callback is invoked on the item (it returns the value and the
expiresAt it leaves on the item), and the stringified item is stored with
expiresAt mapped through serializeNum.  The third component counts callback
invocations. -/
def getA {T : Type} (s : StoreA T) (k : Key) (fn : ItemA T → T × JNum) (now : Int) :
    Option T × StoreA T × Nat :=
  let item := getItemA s k
  if !item.hit || (item.expiresAt.isFiniteJs && item.expiresAt.ltNow now) then
    let r := fn { item with hit := true }
    (some r.1, setItem s k ⟨r.1, serializeNum r.2, true⟩, 1)
  else
    (item.value, s, 0)

/-- The CacheItem class of part_000 (revision C): a value defaulting to
null and an expiry number defaulting to Infinity. -/
structure CacheItemC (T : Type) where
  value : Option T
  expiry : JNum
deriving DecidableEq, Repr

/-- CacheItem.hit of part_000: now < expiry. -/
def CacheItemC.hit {T : Type} (now : Int) (it : CacheItemC T) : Bool :=
  it.expiry.nowLt now

/-- Date.prototype.getSeconds for a nonnegative epoch-millisecond time: the
seconds component of the minute (timezone offsets are whole minutes, so the
component is the same in local time and UTC). -/
def getSecondsJs (t : Int) : Int := (t / 1000) % 60

/-- The expiresAt setter of part_000 CacheItem: a null argument leaves the
item untouched; a concrete Date sets expiry to value.getSeconds(), the
seconds-of-minute component of the date. -/
def CacheItemC.setExpiresAt {T : Type} (it : CacheItemC T) (value : Option Int) :
    CacheItemC T :=
  match value with
  | none => it
  | some t => { it with expiry := .num (getSecondsJs t) }

/-- The expiresAfter setter of part_000 CacheItem: a null argument leaves
the item untouched; a number sets expiry to now plus that number. -/
def CacheItemC.setExpiresAfter {T : Type} (it : CacheItemC T) (value : Option Int)
    (now : Int) : CacheItemC T :=
  match value with
  | none => it
  | some v => { it with expiry := .num (now + v) }

/-- The plain object obtained by JSON.parse of a stringified part_000
CacheItem: it carries the value and expiry data fields only. -/
structure StoredC (T : Type) where
  value : Option T
  expiry : JNum
deriving DecidableEq, Repr

/-- JSON.stringify of a part_000 CacheItem: the two data fields, with
Infinity becoming null. -/
def serializeC {T : Type} (it : CacheItemC T) : StoredC T :=
  ⟨it.value, serializeNum it.expiry⟩

/-- A store holding part_000 serialized items. -/
abbrev StoreC (T : Type) := Store (StoredC T)

/-- The access item?.hit on the parsed plain object of part_000: the parsed
object has value and expiry data properties but no hit accessor (hit is a
getter of the CacheItem class, lost by the JSON round trip), so the access
yields undefined, which is falsy; when the item is null the optional chain
also yields undefined. -/
def parsedHitC {T : Type} (_item : Option (StoredC T)) : Bool := false

/-- Part_000 CachePool.get: parse the stored string (null when absent);
when item?.hit is falsy, initialize a fresh CacheItem, obtain its value
from the callback (which receives the item and may set its expiry), store
the stringified item and return its value.  The hit branch would return the
parsed value but is unreachable because the parsed object never has a hit
property.  The third component counts callback invocations. -/
def getC {T : Type} (s : StoreC T) (k : Key) (fn : CacheItemC T → T × JNum) (_now : Int) :
    Option T × StoreC T × Nat :=
  let item := getItem s k
  if !parsedHitC item then
    let r := fn ⟨none, .inf⟩
    let it : CacheItemC T := ⟨some r.1, r.2⟩
    (it.value, setItem s k (serializeC it), 1)
  else
    (item.bind (·.value), s, 0)

/-- NamespaceCachePool key rewriting: the template literal
namespace + dot + key. -/
def nsKey (ns k : Key) : Key := ns ++ '.' :: k

/-- NamespaceCachePool.get over a revision-B pool: delegate with the
namespaced key. -/
def nsGetB {T : Type} (ns : Key) (s : StoreB T) (k : Key) (fn : Unit → EnvB T)
    (now : Int) : Except JsErr (Option T) × StoreB T × Nat :=
  getB s (nsKey ns k) fn now

/-- NamespaceCachePool.has: delegate with the namespaced key. -/
def nsHas {V : Type} (ns : Key) (s : Store V) (k : Key) : Bool :=
  hasStore s (nsKey ns k)

/-- NamespaceCachePool.delete: delegate with the namespaced key. -/
def nsDelete {V : Type} (ns : Key) (s : Store V) (k : Key) : Store V :=
  removeItem s (nsKey ns k)

/-- Decides whether the first list is a leading segment of the second. -/
def startsWithKey : Key → Key → Bool
  | [], _ => true
  | _ :: _, [] => false
  | a :: as, b :: bs => a == b && startsWithKey as bs

/-- JavaScript String.prototype.includes: the needle occurs contiguously
somewhere in the haystack (an empty needle is always found). -/
def includesJs (needle : Key) : Key → Bool
  | [] => needle.isEmpty
  | c :: rest => startsWithKey needle (c :: rest) || includesJs needle rest

/-- NamespaceCachePool.clear: enumerate every key of the store by index,
collect those for which key.includes(namespace) holds, substring match
anywhere in the key, then remove each collected key. -/
def nsClear {V : Type} (ns : Key) (s : Store V) : Store V :=
  let ks := (List.range s.length).filterMap (fun i =>
    match keyAt s i with
    | some k => if includesJs ns k then some k else none
    | none => none)
  ks.foldl removeItem s

/-- The split of a compound key on the dot character, matching the
JavaScript String.prototype.split with a one-character separator: it splits
at every occurrence. -/
def splitOnDot : Key → List Key
  | [] => [[]]
  | c :: cs =>
    if c = '.' then
      [] :: splitOnDot cs
    else
      match splitOnDot cs with
      | s :: ss => (c :: s) :: ss
      | [] => [[c]]

/-- The text of a key before its first dot (the whole key when it has no
dot); used to state properties of the compound-key split. -/
def firstSegment : Key → Key
  | [] => []
  | c :: cs => if c = '.' then [] else c :: firstSegment cs

/-- ChainedCachePool getNamespaceAndKey: the destructuring of
key.split(dot) into its first two elements; the second is undefined when
the key contains no dot. -/
def getNamespaceAndKey (key : Key) : Key × Option Key :=
  match splitOnDot key with
  | [] => ([], none)
  | [n] => (n, none)
  | n :: k :: _ => (n, some k)

/-- The string image of undefined under a template literal, produced when a
pool is addressed with the undefined local key of a dot-free compound
key. -/
def undefinedKey : Key := toKey "undefined"

/-- Coercion of the possibly-undefined local key to the string actually
handed to the resolved pool. -/
def localKeyOf (k : Option Key) : Key := k.getD undefinedKey

/-- ChainedCachePool pool lookup: the first registered pool whose namespace
equals the argument, undefined when none matches (Array.prototype.find). -/
def findCachePool {σ : Type} (pools : List (Key × σ)) (n : Key) : Option (Key × σ) :=
  pools.find? (fun p => p.1 = n)

/-- Replaces the store of the first pool with the given namespace,
modelling in-place mutation of the pool object returned by find. -/
def updatePool {σ : Type} : List (Key × σ) → Key → σ → List (Key × σ)
  | [], _, _ => []
  | p :: ps, n, s => if p.1 = n then (n, s) :: ps else p :: updatePool ps n s

/-- A chain of revision-B namespace pools: each has a namespace and its own
store. -/
abbrev PoolsB (T : Type) := List (Key × StoreB T)

/-- A chain of revision-A namespace pools. -/
abbrev PoolsA (T : Type) := List (Key × StoreA T)

/-- Revision B ChainedCachePool.get: split the key, look the pool up.  When
no pool matches, getCachePool returns undefined; the guard null === pool is
then false, so the unknown-namespace throw is skipped and pool.get(k, fn)
dereferences undefined, raising a TypeError before the callback can run.
Otherwise the resolved pool is addressed with the (coerced) local key. -/
def chainedGetB {T : Type} (pools : PoolsB T) (key : Key) (fn : Unit → EnvB T)
    (now : Int) : Except JsErr (Option T) × PoolsB T × Nat :=
  match findCachePool pools (getNamespaceAndKey key).1 with
  | none => (.error .typeError, pools, 0)
  | some (ns, s) =>
      let r := nsGetB ns s (localKeyOf (getNamespaceAndKey key).2) fn now
      (r.1, updatePool pools ns r.2.1, r.2.2)

/-- Revision A ChainedCachePool.get: split the key, look the pool up, and
dereference the result without any guard, so an unknown namespace raises a
TypeError before the callback can run. -/
def chainedGetA {T : Type} (pools : PoolsA T) (key : Key) (fn : ItemA T → T × JNum)
    (now : Int) : Except JsErr (Option T) × PoolsA T × Nat :=
  match findCachePool pools (getNamespaceAndKey key).1 with
  | none => (.error .typeError, pools, 0)
  | some (ns, s) =>
      let r := getA s (nsKey ns (localKeyOf (getNamespaceAndKey key).2)) fn now
      (.ok r.1, updatePool pools ns r.2.1, r.2.2)

/-- Revision A ChainedCachePool.has: optional chaining with a false
default, so an unknown namespace yields false without error. -/
def chainedHasA {V : Type} (pools : List (Key × Store V)) (key : Key) :
    Except JsErr Bool :=
  match findCachePool pools (getNamespaceAndKey key).1 with
  | none => .ok false
  | some (ns, s) => .ok (nsHas ns s (localKeyOf (getNamespaceAndKey key).2))

/-- Revision B ChainedCachePool.has: the guard pool !== null is true for
the undefined returned by find on an unknown namespace, so pool.has(k) is
evaluated on undefined and raises a TypeError.  The unguarded part_000
version behaves the same way. -/
def chainedHasB {V : Type} (pools : List (Key × Store V)) (key : Key) :
    Except JsErr Bool :=
  match findCachePool pools (getNamespaceAndKey key).1 with
  | none => .error .typeError
  | some (ns, s) => .ok (nsHas ns s (localKeyOf (getNamespaceAndKey key).2))

/-- Revision A ChainedCachePool.delete: optional chaining, so an unknown
namespace silently does nothing.  The part_000 version behaves the same
way. -/
def chainedDeleteA {V : Type} (pools : List (Key × Store V)) (key : Key) :
    Except JsErr Unit × List (Key × Store V) :=
  match findCachePool pools (getNamespaceAndKey key).1 with
  | none => (.ok (), pools)
  | some (ns, s) =>
      (.ok (), updatePool pools ns (nsDelete ns s (localKeyOf (getNamespaceAndKey key).2)))

/-- Revision B ChainedCachePool.delete: the guard null !== pool is true for
the undefined returned by find on an unknown namespace, so pool.delete(k)
is evaluated on undefined and raises a TypeError. -/
def chainedDeleteB {V : Type} (pools : List (Key × Store V)) (key : Key) :
    Except JsErr Unit × List (Key × Store V) :=
  match findCachePool pools (getNamespaceAndKey key).1 with
  | none => (.error .typeError, pools)
  | some (ns, s) =>
      (.ok (), updatePool pools ns (nsDelete ns s (localKeyOf (getNamespaceAndKey key).2)))

/-! Helper lemmas about the MemoryStorage operations. -/

theorem findIndexFor_cons {V : Type} (e : StorageEntry V) (es : Store V) (k : Key) :
    findIndexFor (e :: es) k
      = if e.key = k then some 0 else (findIndexFor es k).map (· + 1) := rfl

theorem storeKeys_cons {V : Type} (e : StorageEntry V) (es : Store V) :
    storeKeys (e :: es) = e.key :: storeKeys es := rfl

theorem setItem_nil {V : Type} (k : Key) (v : V) :
    setItem ([] : Store V) k v = [⟨k, v⟩] := rfl

theorem setItem_cons {V : Type} (e : StorageEntry V) (es : Store V) (k : Key) (v : V) :
    setItem (e :: es) k v
      = if e.key = k then { e with value := v } :: es else e :: setItem es k v := by
  unfold setItem
  rw [findIndexFor_cons]
  by_cases h : e.key = k
  · simp [h, updateValueAt]
  · simp only [h, if_false]
    cases hf : findIndexFor es k with
    | none => simp
    | some j => simp [updateValueAt]

theorem removeItem_cons {V : Type} (e : StorageEntry V) (es : Store V) (k : Key) :
    removeItem (e :: es) k = if e.key = k then es else e :: removeItem es k := by
  unfold removeItem
  rw [findIndexFor_cons]
  by_cases h : e.key = k
  · simp [h, List.eraseIdx]
  · simp only [h, if_false]
    cases hf : findIndexFor es k with
    | none => simp
    | some j => simp [List.eraseIdx]

theorem getItem_cons {V : Type} (e : StorageEntry V) (es : Store V) (k : Key) :
    getItem (e :: es) k = if e.key = k then some e.value else getItem es k := by
  unfold getItem
  rw [findIndexFor_cons]
  by_cases h : e.key = k
  · simp [h]
  · simp only [h, if_false]
    cases hf : findIndexFor es k with
    | none => simp
    | some j => simp

theorem findIndexFor_eq_none_iff {V : Type} (s : Store V) (k : Key) :
    findIndexFor s k = none ↔ k ∉ storeKeys s := by
  induction s with
  | nil => simp [findIndexFor, storeKeys]
  | cons e es ih =>
      rw [findIndexFor_cons, storeKeys_cons]
      by_cases h : e.key = k
      · simp [h]
      · simp only [h, if_false, Option.map_eq_none', ih, List.mem_cons]
        constructor
        · intro hn hor
          rcases hor with h1 | h2
          · exact h h1.symm
          · exact hn h2
        · intro hn
          exact fun hm => hn (Or.inr hm)

theorem getItem_setItem_self {V : Type} (s : Store V) (k : Key) (v : V) :
    getItem (setItem s k v) k = some v := by
  induction s with
  | nil => rw [setItem_nil, getItem_cons]; simp
  | cons e es ih =>
      rw [setItem_cons]
      by_cases h : e.key = k
      · simp [h, getItem_cons]
      · simp only [h, if_false]
        rw [getItem_cons]
        simp [h, ih]

theorem storeKeys_setItem_present {V : Type} (s : Store V) (k : Key) (v : V)
    (h : findIndexFor s k ≠ none) :
    storeKeys (setItem s k v) = storeKeys s := by
  induction s with
  | nil => exact absurd rfl h
  | cons e es ih =>
      rw [setItem_cons]
      by_cases he : e.key = k
      · simp [he, storeKeys_cons]
      · simp only [he, if_false, storeKeys_cons]
        rw [findIndexFor_cons] at h
        simp only [he, if_false, ne_eq, Option.map_eq_none'] at h
        rw [ih h]

theorem setItem_absent {V : Type} (s : Store V) (k : Key) (v : V)
    (h : findIndexFor s k = none) :
    setItem s k v = s ++ [⟨k, v⟩] := by
  unfold setItem
  rw [h]

theorem storeKeys_removeItem_sublist {V : Type} (s : Store V) (k : Key) :
    List.Sublist (storeKeys (removeItem s k)) (storeKeys s) := by
  induction s with
  | nil => exact List.Sublist.refl _
  | cons e es ih =>
      rw [removeItem_cons]
      by_cases h : e.key = k
      · simp only [h, if_true, storeKeys_cons]
        exact List.sublist_cons_self _ _
      · simp only [h, if_false, storeKeys_cons]
        exact ih.cons₂ e.key

theorem nodup_setItem {V : Type} (s : Store V) (k : Key) (v : V)
    (h : (storeKeys s).Nodup) : (storeKeys (setItem s k v)).Nodup := by
  cases hf : findIndexFor s k with
  | some i =>
      rw [storeKeys_setItem_present s k v (by simp [hf])]
      exact h
  | none =>
      rw [setItem_absent s k v hf]
      have hk : k ∉ storeKeys s := (findIndexFor_eq_none_iff s k).mp hf
      have hsk : storeKeys (s ++ [⟨k, v⟩]) = storeKeys s ++ [k] := by
        simp [storeKeys]
      rw [hsk, List.nodup_append_comm, List.singleton_append, List.nodup_cons]
      exact ⟨hk, h⟩

theorem nodup_removeItem {V : Type} (s : Store V) (k : Key)
    (h : (storeKeys s).Nodup) : (storeKeys (removeItem s k)).Nodup :=
  (storeKeys_removeItem_sublist s k).nodup h

theorem reachable_nodup {V : Type} (s : Store V) (h : ReachableStore s) :
    (storeKeys s).Nodup := by
  induction h with
  | empty => simp [storeKeys]
  | set s k v _ ih => exact nodup_setItem s k v ih
  | remove s k _ ih => exact nodup_removeItem s k ih
  | clear s _ => simp [clearStore, storeKeys]

/-! Helper lemmas about the compound-key split. -/

theorem splitOnDot_head (xs : Key) :
    ∃ ss, splitOnDot xs = firstSegment xs :: ss := by
  induction xs with
  | nil => exact ⟨[], rfl⟩
  | cons c cs ih =>
      by_cases h : c = '.'
      · exact ⟨splitOnDot cs, by simp [splitOnDot, firstSegment, h]⟩
      · obtain ⟨ss, hss⟩ := ih
        exact ⟨ss, by simp [splitOnDot, firstSegment, h, hss]⟩

theorem splitOnDot_append (ns rest : Key) (h : '.' ∉ ns) :
    splitOnDot (ns ++ '.' :: rest) = ns :: splitOnDot rest := by
  induction ns with
  | nil => simp [splitOnDot]
  | cons c cs ih =>
      have hc : ¬ c = '.' := fun hc => h (hc ▸ List.mem_cons_self c cs)
      have hcs : '.' ∉ cs := fun hm => h (List.mem_cons_of_mem c hm)
      show splitOnDot (c :: (cs ++ '.' :: rest)) = (c :: cs) :: splitOnDot rest
      simp only [splitOnDot, hc, if_false, ih hcs]

theorem getNamespaceAndKey_fst (key : Key) :
    (getNamespaceAndKey key).1 = firstSegment key := by
  obtain ⟨ss, hss⟩ := splitOnDot_head key
  unfold getNamespaceAndKey
  rw [hss]
  cases ss with
  | nil => rfl
  | cons a as => rfl

theorem findCachePool_eq_none {σ : Type} (pools : List (Key × σ)) (n : Key)
    (h : ∀ p ∈ pools, p.1 ≠ n) : findCachePool pools n = none := by
  unfold findCachePool
  rw [List.find?_eq_none]
  intro x hx
  simp only [decide_eq_true_eq]
  exact h x hx

/-! Claim theorems. -/

/-- C1 (code bug, failing-input evaluation): the claim says a get on an
unset key invokes the callback once and returns its result, and the
immediately following get is a HIT that returns the same value with no
second invocation and no store mutation.  In revision A, caching 42 under
an unset key with a callback that sets no expiry stores an envelope whose
expiresAt is null, the JSON image of Infinity; on the next get, isFinite of
null holds and null is below now, so that get is a MISS: the second
callback IS invoked (count 1), the entry is rewritten, and the second
callback result 99 is returned instead of the cached 42.  In the part_000
revision the second get also invokes its callback, because the parsed item
has no hit property.  Revision B behaves as the claim states: the second
get returns the cached 42 with zero invocations and an unchanged store. -/
theorem get_miss_then_hit_code_bug :
    (getA (getA ([] : StoreA Nat) (toKey "k") (fun it => (42, it.expiresAt)) 1000).2.1
        (toKey "k") (fun it => (99, it.expiresAt)) 1001)
      = (some 99, [⟨toKey "k", ⟨99, .null, true⟩⟩], 1) ∧
    (getC (getC ([] : StoreC Nat) (toKey "k") (fun _ => (42, .inf)) 1000).2.1
        (toKey "k") (fun _ => (99, .inf)) 1001).2.2 = 1 ∧
    (getB (getB ([] : StoreB Nat) (toKey "k") (fun _ => (42, none)) 1000).2.1
        (toKey "k") (fun _ => (99, none)) 1001)
      = (.ok (some 42), [⟨toKey "k", .jval (some 42) none⟩], 0) :=
  ⟨rfl, rfl, rfl⟩

/-- C2: for every compound key whose namespace part (the text before the
first dot) matches the namespace of none of the registered pools,
ChainedCachePool.get of both cache.ts revisions raises an error for that
call — the dereference of the undefined pool raises a TypeError before the
compute callback can run — so the callback is invoked zero times, every
pool is left untouched, and no value or silent miss is reported. -/
theorem chained_get_unknown_namespace_errors {T : Type} (poolsA : PoolsA T)
    (poolsB : PoolsB T) (key : Key) (fnA : ItemA T → T × JNum)
    (fnB : Unit → EnvB T) (now : Int)
    (hA : ∀ p ∈ poolsA, p.1 ≠ firstSegment key)
    (hB : ∀ p ∈ poolsB, p.1 ≠ firstSegment key) :
    chainedGetA poolsA key fnA now = (.error .typeError, poolsA, 0) ∧
    chainedGetB poolsB key fnB now = (.error .typeError, poolsB, 0) := by
  have hA2 : findCachePool poolsA (getNamespaceAndKey key).1 = none := by
    rw [getNamespaceAndKey_fst]
    exact findCachePool_eq_none _ _ hA
  have hB2 : findCachePool poolsB (getNamespaceAndKey key).1 = none := by
    rw [getNamespaceAndKey_fst]
    exact findCachePool_eq_none _ _ hB
  constructor
  · unfold chainedGetA
    rw [hA2]
  · unfold chainedGetB
    rw [hB2]

/-- C2 witness: a chain holding the single namespace a, addressed with the
key missing.x, raises a TypeError in both revisions with zero callback
invocations. -/
theorem chained_get_unknown_namespace_errors_witness :
    chainedGetA [((toKey "a"), ([] : StoreA Nat))] (toKey "missing.x")
        (fun it => (0, it.expiresAt)) 0
      = (.error .typeError, [((toKey "a"), [])], 0) ∧
    chainedGetB [((toKey "a"), ([] : StoreB Nat))] (toKey "missing.x")
        (fun _ => (0, none)) 0
      = (.error .typeError, [((toKey "a"), [])], 0) :=
  chained_get_unknown_namespace_errors _ _ _ _ _ _ (by decide) (by decide)

/-- C3 counterexample: the claim says the local key is everything after the
first dot, further dots included.  The key ns.a.b is split by
key.split(dot) into all three segments and the destructuring keeps only the
first two, so the local key is a, not a.b: the routed revision-B get writes
the physical key ns.a and stores nothing under ns.a.b. -/
theorem split_localKey_counterexample :
    getNamespaceAndKey (toKey "ns.a.b") = (toKey "ns", some (toKey "a")) ∧
    toKey "a" ≠ toKey "a.b" ∧
    (chainedGetB [((toKey "ns"), ([] : StoreB Nat))] (toKey "ns.a.b")
        (fun _ => (1, none)) 0).2.1
      = [((toKey "ns"), [⟨toKey "ns.a", .jval (some 1) none⟩])] ∧
    getItem [⟨toKey "ns.a", StoredStr.jval (some (1 : Nat)) none⟩]
        (toKey "ns.a.b") = none :=
  ⟨rfl, by decide, rfl, rfl⟩

/-- C3 (amended): for every compound key built from a dot-free namespace
and a remainder, the split used by get, delete and has yields the namespace
and only the segment of the remainder before its next dot — the resolved
pool is addressed with that first segment, and anything after a second dot
is dropped. -/
theorem split_localKey_amended (ns rest : Key) (h : '.' ∉ ns) :
    getNamespaceAndKey (ns ++ '.' :: rest) = (ns, some (firstSegment rest)) := by
  unfold getNamespaceAndKey
  rw [splitOnDot_append ns rest h]
  obtain ⟨ss, hss⟩ := splitOnDot_head rest
  rw [hss]

/-- C3 witness: the amended split at the concrete key ns.a.b. -/
theorem split_localKey_amended_witness :
    getNamespaceAndKey (toKey "ns.a.b") = (toKey "ns", some (toKey "a")) :=
  split_localKey_amended (toKey "ns") (toKey "a.b") (by decide)

/-- C4 (amended): an entry with a stored concrete expiry e is treated as
expired exactly when now is strictly greater than e — not when now equals
e.  In both cache.ts revisions, a get with e < now is a MISS (the callback
is invoked once and the entry overwritten) and a get with now ≤ e is a HIT
(the stored value is returned, the callback is not invoked, and the store
is untouched). -/
theorem expiry_boundary_amended {T : Type} (sB : StoreB T) (sA : StoreA T) (k : Key)
    (vB vA : T) (e : Int) (fnB : Unit → EnvB T) (fnA : ItemA T → T × JNum) (now : Int)
    (hB : getItem sB k = some (.jval (some vB) (some (.num e))))
    (hA : getItem sA k = some ⟨vA, .num e, true⟩) :
    (e < now →
      getB sB k fnB now
        = (.ok (some (fnB ()).1), setItem sB k (encodeEnvB (fnB ())), 1) ∧
      (getA sA k fnA now).2.2 = 1) ∧
    (now ≤ e →
      getB sB k fnB now = (.ok (some vB), sB, 0) ∧
      getA sA k fnA now = (some vA, sA, 0)) := by
  have hIB : getItemB sB k = .ok (some (some vB, some (.num e))) := by
    unfold getItemB
    rw [hB]
  have hIA : getItemA sA k = ⟨some vA, .num e, true⟩ := by
    unfold getItemA
    rw [hA]
  constructor
  · intro hlt
    constructor
    · unfold getB
      rw [hIB]
      simp [nullishToInf, JNum.ltNow, hlt]
    · unfold getA
      rw [hIA]
      simp [JNum.isFiniteJs, JNum.ltNow, hlt]
  · intro hle
    have hnlt : ¬ e < now := not_lt.mpr hle
    constructor
    · unfold getB
      rw [hIB]
      simp [nullishToInf, JNum.ltNow, hnlt]
    · unfold getA
      rw [hIA]
      simp [JNum.isFiniteJs, JNum.ltNow, hnlt]

/-- C4 counterexample: with a stored concrete expiry e = 100 and a read at
now = 100, so that now ≥ e holds, the revision-B get is a HIT: the callback
is not invoked (count 0), the store is untouched, and the stored value 5 is
returned — refuting the claim that now ≥ e makes the get a MISS. -/
theorem expiry_boundary_counterexample :
    getB [⟨toKey "k", .jval (some (5 : Nat)) (some (.num 100))⟩] (toKey "k")
        (fun _ => (7, none)) 100
      = (.ok (some 5), [⟨toKey "k", .jval (some 5) (some (.num 100))⟩], 0) ∧
    (100 : Int) ≥ 100 :=
  ⟨rfl, le_refl _⟩

/-- C4 witness: the amended boundary at e = 100, read at now = 101 (miss in
revision B) and at now = 100 (hit in both revisions). -/
theorem expiry_boundary_amended_witness :
    (getB [⟨toKey "k", StoredStr.jval (some (5 : Nat)) (some (.num 100))⟩] (toKey "k")
        (fun _ => (7, none)) 101
      = (.ok (some 7), [⟨toKey "k", StoredStr.jval (some 7) none⟩], 1)) ∧
    (getB [⟨toKey "k", StoredStr.jval (some (5 : Nat)) (some (.num 100))⟩] (toKey "k")
        (fun _ => (7, none)) 100
      = (.ok (some 5), [⟨toKey "k", StoredStr.jval (some 5) (some (.num 100))⟩], 0)) ∧
    (getA [⟨toKey "k", (⟨5, .num 100, true⟩ : StoredA Nat)⟩] (toKey "k")
        (fun it => (7, it.expiresAt)) 100
      = (some 5, [⟨toKey "k", ⟨5, .num 100, true⟩⟩], 0)) := by
  have h1 := expiry_boundary_amended
    [⟨toKey "k", StoredStr.jval (some (5 : Nat)) (some (JNum.num 100))⟩]
    [⟨toKey "k", (⟨5, JNum.num 100, true⟩ : StoredA Nat)⟩]
    (toKey "k") 5 5 100 (fun _ => (7, none)) (fun it => (7, it.expiresAt)) 101 rfl rfl
  have h2 := expiry_boundary_amended
    [⟨toKey "k", StoredStr.jval (some (5 : Nat)) (some (JNum.num 100))⟩]
    [⟨toKey "k", (⟨5, JNum.num 100, true⟩ : StoredA Nat)⟩]
    (toKey "k") 5 5 100 (fun _ => (7, none)) (fun it => (7, it.expiresAt)) 100 rfl rfl
  exact ⟨(h1.1 (by decide)).1, (h2.2 (by decide)).1, (h2.2 (by decide)).2⟩

/-- C5 (code bug, failing-input evaluation): the claim says clearing one
NamespaceCachePool removes none of the entries written through another
pool with a distinct namespace on the same store.  With namespaces a and
ba sharing one MemoryStorage, the get through a writes the physical key
a.k and has through ba is false (this half of the claim holds here), and
the get through ba writes the physical key ba.k; but clear on a removes
every key for which key.includes(a) holds — a substring match — so it
removes ba.k as well, leaving the store empty and the entry of the other
pool gone. -/
theorem namespace_clear_substring_code_bug :
    ((nsGetB (toKey "a") ([] : StoreB Nat) (toKey "k") (fun _ => (1, none)) 0).2.1
      = [⟨toKey "a.k", .jval (some 1) none⟩]) ∧
    nsHas (toKey "ba")
      [⟨toKey "a.k", StoredStr.jval (some (1 : Nat)) none⟩] (toKey "k") = false ∧
    ((nsGetB (toKey "ba")
        [⟨toKey "a.k", StoredStr.jval (some (1 : Nat)) none⟩] (toKey "k")
        (fun _ => (7, none)) 0).2.1
      = [⟨toKey "a.k", .jval (some 1) none⟩, ⟨toKey "ba.k", .jval (some 7) none⟩]) ∧
    nsClear (toKey "a")
      [⟨toKey "a.k", StoredStr.jval (some (1 : Nat)) none⟩,
       ⟨toKey "ba.k", StoredStr.jval (some 7) none⟩] = [] ∧
    nsHas (toKey "ba")
      (nsClear (toKey "a")
        [⟨toKey "a.k", StoredStr.jval (some (1 : Nat)) none⟩,
         ⟨toKey "ba.k", StoredStr.jval (some 7) none⟩]) (toKey "k") = false :=
  ⟨rfl, rfl, rfl, rfl, rfl⟩

/-- C6 (code bug, failing-input evaluation): the claim says has on an
unknown namespace returns false without throwing.  In revision B the guard
compares the pool against null, but Array.prototype.find returns undefined,
so the guard passes and pool.has is evaluated on undefined: a TypeError is
raised (the unguarded part_000 version raises the same).  The revision-A
optional-chaining version returns false as the claim states. -/
theorem chained_has_undefined_guard_code_bug :
    chainedHasB [((toKey "a"), ([] : StoreB Nat))] (toKey "missing.x")
      = .error .typeError ∧
    chainedHasA [((toKey "a"), ([] : StoreB Nat))] (toKey "missing.x")
      = .ok false :=
  ⟨rfl, rfl⟩

/-- C7 (code bug, failing-input evaluation): the claim says delete on an
unknown namespace silently does nothing.  In revision B the guard compares
the pool against null, but Array.prototype.find returns undefined, so the
guard passes and pool.delete is evaluated on undefined: a TypeError is
raised.  The revision-A optional-chaining version (and the part_000
version) is a silent no-op leaving every pool unchanged, as the claim
states. -/
theorem chained_delete_undefined_guard_code_bug :
    chainedDeleteB [((toKey "a"), ([] : StoreB Nat))] (toKey "missing.x")
      = (.error .typeError, [((toKey "a"), [])]) ∧
    chainedDeleteA [((toKey "a"), ([] : StoreB Nat))] (toKey "missing.x")
      = (.ok (), [((toKey "a"), [])]) :=
  ⟨rfl, rfl⟩

/-- C8 (code bug, failing-input evaluation): the claim says assigning a
concrete Date t to expiresAt makes the item expire exactly when now ≥ t.
The part_000 setter stores value.getSeconds() — the seconds-of-minute
component, here 40 for the epoch time 1000000000000 — instead of the epoch
time itself, so the item reads as already expired (hit false) at a now that
is still one second before t.  Assigning the null sentinel leaves the item
never expiring, as the claim states. -/
theorem expiresAt_getSeconds_code_bug :
    (CacheItemC.setExpiresAt (⟨none, .inf⟩ : CacheItemC Nat)
        (some 1000000000000)).expiry = .num 40 ∧
    CacheItemC.hit 999999999000
        (CacheItemC.setExpiresAt (⟨none, .inf⟩ : CacheItemC Nat)
          (some 1000000000000)) = false ∧
    (999999999000 : Int) < 1000000000000 ∧
    CacheItemC.setExpiresAt (⟨none, .inf⟩ : CacheItemC Nat) none
      = (⟨none, .inf⟩ : CacheItemC Nat) :=
  ⟨rfl, rfl, by decide, rfl⟩

/-- C9 counterexample: the claim says every stored string that is not a
valid JSON encoding of the envelope makes get throw without invoking the
callback and without touching the store.  The five-character stored string
null is not a valid envelope encoding, yet JSON.parse accepts it and
yields the null literal, which the get of revision B treats exactly like
an absent entry: it is a MISS — the callback IS invoked (count 1), the
entry IS overwritten with the fresh envelope, and no error is raised. -/
theorem stored_null_miss_counterexample :
    getB [⟨toKey "k", (StoredStr.jnull : StoredStr Nat)⟩] (toKey "k")
        (fun _ => (7, none)) 0
      = (.ok (some 7), [⟨toKey "k", .jval (some 7) none⟩], 1) := rfl

/-- C9 (amended): in the tuple-envelope revision B, get propagates a
decode failure — the SyntaxError of JSON.parse, raised before the callback
is consulted and with the store left unchanged — exactly for the stored
strings that are not syntactically valid JSON.  A stored string that is
valid JSON but still no envelope encoding does not throw: the string null
parses to the null literal and is treated as a miss (the callback is
invoked and the entry overwritten), and a parsed non-null value without
index-0 and index-1 properties, such as the number 5, is silently treated
as a hit, returning undefined without invoking the callback and without
touching the store. -/
theorem malformed_envelope_amended {T : Type} (s : StoreB T) (k : Key)
    (fn : Unit → EnvB T) (now : Int) (str : Key) :
    (getItem s k = some (.invalid str) →
      getB s k fn now = (.error .syntaxError, s, 0)) ∧
    (getItem s k = some .jnull →
      getB s k fn now
        = (.ok (some (fn ()).1), setItem s k (encodeEnvB (fn ())), 1)) ∧
    (getItem s k = some (.jval none none) →
      getB s k fn now = (.ok none, s, 0)) := by
  refine ⟨?_, ?_, ?_⟩
  · intro h
    have hI : getItemB s k = .error .syntaxError := by
      unfold getItemB
      rw [h]
    unfold getB
    rw [hI]
  · intro h
    have hI : getItemB s k = .ok none := by
      unfold getItemB
      rw [h]
    unfold getB
    rw [hI]
  · intro h
    have hI : getItemB s k = .ok (some (none, none)) := by
      unfold getItemB
      rw [h]
    unfold getB
    rw [hI]
    rfl

/-- C9 witness: the three parse outcomes at concrete stores — an invalid
string throws with the store unchanged, a stored null literal recomputes
and overwrites, and a stored plain number silently returns undefined. -/
theorem malformed_envelope_amended_witness :
    (getB [⟨toKey "k", StoredStr.invalid (toKey "oops")⟩] (toKey "k")
        (fun _ => ((1 : Nat), none)) 0
      = (.error .syntaxError, [⟨toKey "k", StoredStr.invalid (toKey "oops")⟩], 0)) ∧
    (getB [⟨toKey "k", (StoredStr.jnull : StoredStr Nat)⟩] (toKey "k")
        (fun _ => ((1 : Nat), none)) 0
      = (.ok (some 1), [⟨toKey "k", StoredStr.jval (some 1) none⟩], 1)) ∧
    (getB [⟨toKey "k", StoredStr.jval (none : Option Nat) none⟩] (toKey "k")
        (fun _ => ((1 : Nat), none)) 0
      = (.ok none, [⟨toKey "k", StoredStr.jval none none⟩], 0)) := by
  refine ⟨?_, ?_, ?_⟩
  · exact (malformed_envelope_amended _ _ _ 0 (toKey "oops")).1 rfl
  · exact (malformed_envelope_amended _ _ _ 0 (toKey "oops")).2.1 rfl
  · exact (malformed_envelope_amended _ _ _ 0 (toKey "oops")).2.2 rfl

/-- C10: every MemoryStorage state reachable through its operations has
pairwise distinct keys; setItem on a present key overwrites the value in
place, leaving the key enumeration and the length unchanged and making
getItem return the new value; setItem on an absent key appends one new
entry at the end, increasing the length by exactly one. -/
theorem memory_storage_set_invariants {V : Type} (s : Store V) (k : Key) (v : V)
    (h : ReachableStore s) :
    (storeKeys s).Nodup ∧
    (findIndexFor s k ≠ none →
      storeKeys (setItem s k v) = storeKeys s ∧
      (setItem s k v).length = s.length ∧
      getItem (setItem s k v) k = some v) ∧
    (findIndexFor s k = none →
      setItem s k v = s ++ [⟨k, v⟩] ∧
      (setItem s k v).length = s.length + 1) := by
  refine ⟨reachable_nodup s h, ?_, ?_⟩
  · intro hp
    refine ⟨storeKeys_setItem_present s k v hp, ?_, getItem_setItem_self s k v⟩
    have hlen := congrArg List.length (storeKeys_setItem_present s k v hp)
    simpa [storeKeys] using hlen
  · intro ha
    refine ⟨setItem_absent s k v ha, ?_⟩
    rw [setItem_absent s k v ha]
    simp

/-- C10 witness: a two-entry reachable store; overwriting the present key x
keeps the enumeration and yields the new value, while setting the absent
key z appends. -/
theorem memory_storage_set_invariants_witness :
    (storeKeys [⟨toKey "x", (1 : Nat)⟩, ⟨toKey "y", 2⟩]).Nodup ∧
    storeKeys (setItem [⟨toKey "x", (1 : Nat)⟩, ⟨toKey "y", 2⟩] (toKey "x") 9)
      = storeKeys [⟨toKey "x", (1 : Nat)⟩, ⟨toKey "y", 2⟩] ∧
    getItem (setItem [⟨toKey "x", (1 : Nat)⟩, ⟨toKey "y", 2⟩] (toKey "x") 9) (toKey "x")
      = some 9 ∧
    setItem [⟨toKey "x", (1 : Nat)⟩, ⟨toKey "y", 2⟩] (toKey "z") 3
      = [⟨toKey "x", (1 : Nat)⟩, ⟨toKey "y", 2⟩] ++ [⟨toKey "z", 3⟩] := by
  have hr : ReachableStore [⟨toKey "x", (1 : Nat)⟩, ⟨toKey "y", 2⟩] :=
    ReachableStore.set [⟨toKey "x", 1⟩] (toKey "y") 2
      (ReachableStore.set [] (toKey "x") 1 ReachableStore.empty)
  have h1 := memory_storage_set_invariants _ (toKey "x") (9 : Nat) hr
  have h2 := memory_storage_set_invariants _ (toKey "z") (3 : Nat) hr
  exact ⟨h1.1, (h1.2.1 (by decide)).1, (h1.2.1 (by decide)).2.2, (h2.2.2 (by decide)).1⟩

end CacheModel
